import Mathlib

/-!
Verification of the library-api request pipeline (books/authors CRUD service).

The development shallowly embeds the core of the repository:
  * the JS string operations used by the validators (`toLowerCase`, `trim`),
  * the Identifier Codec (`parseId`, wrapping the bson `ObjectId` string
    constructor: exactly 24 hex characters accepted, serialized lowercase),
  * the zod schema validators (`AuthorSchema` in routes/authors.js,
    `BookSchema` in routes/books.js), including the zod object-parsing
    discipline (unknown keys stripped, per-field issues collected),
  * the auth middleware (middleware/auth.js: `ENFORCE`, `jwtCheck`,
    `needWrite`),
  * the five express route handlers per resource, threaded through an
    explicit document-store state.

Strings are modelled as `List Char`; JS numbers as `ℚ` (the payloads the
claims touch are small integers and decimals, where JS number semantics
agree with exact arithmetic).
-/

namespace LibraryApi

/-! ## JS character and string operations -/

abbrev Str := List Char

/-- `String.data` of a literal, used to write concrete payloads. -/
def str (s : String) : Str := s.data

/-- Action of JS `toLowerCase` on a code point (the characters relevant to
this code base are basic latin, where JS and `Char.toLower` agree). -/
def lowerN (n : Nat) : Nat := if 65 ≤ n ∧ n ≤ 90 then n + 32 else n

theorem toLower_toNat (c : Char) : (Char.toLower c).toNat = lowerN c.toNat := by
  unfold Char.toLower lowerN
  split
  · next h =>
    rw [if_pos ⟨h.1, h.2⟩]
    have hv : (c.toNat + 32).isValidChar := Or.inl (by omega)
    rw [Char.ofNat, dif_pos hv]
    simp [Char.ofNatAux, Char.toNat, UInt32.toNat]
  · next h =>
    rw [if_neg (by tauto)]

/-- JS `String.prototype.toLowerCase` (on the basic-latin strings this
code base manipulates). -/
def lowerStr (s : Str) : Str := s.map Char.toLower

/-- The whitespace set of JS `String.prototype.trim` (space, tab, line
terminators, vertical tab, form feed, NBSP, BOM). -/
def isJsWsN (n : Nat) : Bool :=
  n == 32 || n == 9 || n == 10 || n == 13 || n == 11 || n == 12 || n == 160 || n == 65279

def isJsWs (c : Char) : Bool := isJsWsN c.toNat

/-- JS `String.prototype.trim`: strip leading and trailing whitespace. -/
def trimStr (s : Str) : Str :=
  ((s.dropWhile isJsWs).reverse.dropWhile isJsWs).reverse

theorem lowerN_idem (n : Nat) : lowerN (lowerN n) = lowerN n := by
  unfold lowerN
  by_cases h : 65 ≤ n ∧ n ≤ 90
  · rw [if_pos h, if_neg (by omega)]
  · rw [if_neg h, if_neg h]

theorem char_eq_of_toNat_eq {a b : Char} (h : a.toNat = b.toNat) : a = b := by
  apply Char.eq_of_val_eq
  apply UInt32.eq_of_toBitVec_eq
  have ha := a.val.toBitVec.isLt
  have hb := b.val.toBitVec.isLt
  apply BitVec.eq_of_toNat_eq
  exact h

theorem toLower_idem (c : Char) : (Char.toLower c).toLower = Char.toLower c := by
  apply char_eq_of_toNat_eq
  rw [toLower_toNat, toLower_toNat, lowerN_idem]

theorem lowerStr_idem (s : Str) : lowerStr (lowerStr s) = lowerStr s := by
  unfold lowerStr
  rw [List.map_map]
  apply List.map_congr_left
  intro c _
  exact toLower_idem c

theorem isJsWs_toLower (c : Char) : isJsWs (Char.toLower c) = isJsWs c := by
  unfold isJsWs isJsWsN
  rw [toLower_toNat]
  unfold lowerN
  split
  · next h =>
    rw [Bool.eq_iff_iff]
    simp only [Bool.or_eq_true, beq_iff_eq]
    constructor <;> (intro hx; omega)
  · rfl

/-- If a list is nonempty and neither its head nor its last element is
whitespace, `trimStr` leaves it unchanged. -/
theorem trimStr_eq_self {s : Str} (hne : s ≠ [])
    (hh : ∀ c, s.head? = some c → isJsWs c = false)
    (hl : ∀ c, s.getLast? = some c → isJsWs c = false) : trimStr s = s := by
  obtain ⟨a, t, rfl⟩ : ∃ a t, s = a :: t := by
    cases s with
    | nil => exact absurd rfl hne
    | cons a t => exact ⟨a, t, rfl⟩
  have ha : isJsWs a = false := hh a rfl
  unfold trimStr
  rw [List.dropWhile_cons, if_neg (by simp [ha])]
  obtain ⟨l, b, hlb⟩ : ∃ l b, a :: t = l ++ [b] := by
    rcases List.eq_nil_or_concat (a :: t) with h | ⟨l, b, h⟩
    · exact absurd h hne
    · exact ⟨l, b, by simpa using h⟩
  have hb : isJsWs b = false := by
    apply hl
    rw [hlb, List.getLast?_concat]
  rw [hlb, List.reverse_append, List.reverse_singleton, List.singleton_append,
    List.dropWhile_cons, if_neg (by simp [hb])]
  simp

/-! ## The zod email check

`z.string().email()` (zod 3.23) tests the case-insensitive regex
`^(?!\.)(?!.*\.\.)([A-Z0-9_'+\-\.]*)[A-Z0-9_+-]@([A-Z0-9][A-Z0-9\-]*\.)+[A-Z]{2,}$`.
Since no character class contains `@` and the label/TLD classes contain no
dot, matching decomposes deterministically: split at the first `@`, check
the local part, then repeatedly split the domain at its first dot. -/

def isAlphaN (n : Nat) : Bool := (65 ≤ n && n ≤ 90) || (97 ≤ n && n ≤ 122)

def isDigitN (n : Nat) : Bool := 48 ≤ n && n ≤ 57

/-- `[A-Z0-9_'+\-\.]` (case-insensitive). -/
def isLocalPrefixChar (n : Nat) : Bool :=
  isAlphaN n || isDigitN n || n == 95 || n == 39 || n == 43 || n == 45 || n == 46

/-- `[A-Z0-9_+-]` (case-insensitive). -/
def isLocalLastChar (n : Nat) : Bool :=
  isAlphaN n || isDigitN n || n == 95 || n == 43 || n == 45

/-- `[A-Z0-9]` (case-insensitive). -/
def isLabelStartChar (n : Nat) : Bool := isAlphaN n || isDigitN n

/-- `[A-Z0-9\-]` (case-insensitive). -/
def isLabelChar (n : Nat) : Bool := isAlphaN n || isDigitN n || n == 45

/-- Split a string at the first occurrence of code point `k`. -/
def splitAtFirst (k : Nat) : Str → Option (Str × Str)
  | [] => none
  | c :: t =>
    if c.toNat == k then some ([], t)
    else
      match splitAtFirst k t with
      | none => none
      | some (l, r) => some (c :: l, r)

theorem splitAtFirst_eq {k : Nat} :
    ∀ {s l r : Str}, splitAtFirst k s = some (l, r) →
      ∃ c : Char, c.toNat = k ∧ s = l ++ c :: r := by
  intro s
  induction s with
  | nil => intro l r h; simp [splitAtFirst] at h
  | cons c t ih =>
    intro l r h
    unfold splitAtFirst at h
    split at h
    · next hc =>
      simp only [Option.some.injEq, Prod.mk.injEq] at h
      exact ⟨c, by simpa using hc, by simp [← h.1, ← h.2]⟩
    · next hc =>
      cases hsp : splitAtFirst k t with
      | none => rw [hsp] at h; simp at h
      | some p =>
        obtain ⟨l', r'⟩ := p
        rw [hsp] at h
        simp only [Option.some.injEq, Prod.mk.injEq] at h
        obtain ⟨cc, hcc, hs⟩ := ih hsp
        exact ⟨cc, hcc, by rw [← h.1, ← h.2, hs]; simp⟩

/-- Local part: `([A-Z0-9_'+\-\.]*)[A-Z0-9_+-]`. -/
def isLocalPart : Str → Bool
  | [] => false
  | [c] => isLocalLastChar c.toNat
  | c :: d :: t => isLocalPrefixChar c.toNat && isLocalPart (d :: t)

/-- Domain label: `[A-Z0-9][A-Z0-9\-]*`. -/
def isLabel : Str → Bool
  | [] => false
  | c :: t => isLabelStartChar c.toNat && t.all (fun d => isLabelChar d.toNat)

/-- Final domain segment: `[A-Z]{2,}`. -/
def isTld (s : Str) : Bool :=
  decide (2 ≤ s.length) && s.all (fun c => isAlphaN c.toNat)

/-- Domain matching with explicit fuel (each step strips at least the
leading label and its dot, so `length + 1` fuel always suffices; the fuel
only makes the recursion structural). -/
def isDomainFuel : Nat → Str → Bool
  | 0, _ => false
  | fuel + 1, d =>
    match splitAtFirst 46 d with
    | none => false
    | some (lab, rest) => isLabel lab && (isTld rest || isDomainFuel fuel rest)

/-- Domain: `([A-Z0-9][A-Z0-9\-]*\.)+[A-Z]{2,}` — one or more labels each
followed by a dot (code point 46), then the TLD. -/
def isDomain (d : Str) : Bool := isDomainFuel (d.length + 1) d

theorem isDomainFuel_succ_none {fuel : Nat} {d : Str}
    (hsp : splitAtFirst 46 d = none) : isDomainFuel (fuel + 1) d = false := by
  show (match splitAtFirst 46 d with
        | none => false
        | some (lab, rest) => isLabel lab && (isTld rest || isDomainFuel fuel rest)) = false
  rw [hsp]

theorem isDomainFuel_succ_some {fuel : Nat} {d lab rest : Str}
    (hsp : splitAtFirst 46 d = some (lab, rest)) :
    isDomainFuel (fuel + 1) d = (isLabel lab && (isTld rest || isDomainFuel fuel rest)) := by
  show (match splitAtFirst 46 d with
        | none => false
        | some (lab, rest) => isLabel lab && (isTld rest || isDomainFuel fuel rest)) = _
  rw [hsp]

theorem splitAtFirst_rest_lt {k : Nat} {s l r : Str}
    (h : splitAtFirst k s = some (l, r)) : r.length < s.length := by
  obtain ⟨c, _, hc⟩ := splitAtFirst_eq h
  subst hc
  simp
  omega

/-- Fuel irrelevance: any fuel above the length computes the same verdict. -/
theorem isDomainFuel_eq_isDomain :
    ∀ (f : Nat) (d : Str), d.length < f → isDomainFuel f d = isDomain d := by
  intro f
  induction f using Nat.strong_induction_on with
  | _ f ih =>
    cases f with
    | zero => intro d hd; omega
    | succ n =>
      intro d hd
      cases hsp : splitAtFirst 46 d with
      | none =>
        unfold isDomain
        rw [isDomainFuel_succ_none hsp, isDomainFuel_succ_none hsp]
      | some p =>
        obtain ⟨lab, rest⟩ := p
        have hlt := splitAtFirst_rest_lt hsp
        unfold isDomain
        rw [isDomainFuel_succ_some hsp, isDomainFuel_succ_some hsp]
        rw [ih n (by omega) rest (by omega), ih d.length (by omega) rest (by omega)]

/-- The lookahead `(?!.*\.\.)`: no two consecutive dots anywhere. -/
def noDoubleDot : Str → Bool
  | [] => true
  | [_] => true
  | a :: b :: t => !(a.toNat == 46 && b.toNat == 46) && noDoubleDot (b :: t)

/-- The full zod email regex. -/
def isValidEmail (s : Str) : Bool :=
  match splitAtFirst 64 s with
  | none => false
  | some (loc, dom) =>
    (match s.head? with
     | none => false
     | some c => !(c.toNat == 46)) &&
    noDoubleDot s && isLocalPart loc && isDomain dom

/-! ### The email regex is closed under `toLowerCase` -/

theorem isAlphaN_lowerN {n : Nat} (h : isAlphaN n = true) : isAlphaN (lowerN n) = true := by
  unfold isAlphaN at h ⊢
  unfold lowerN
  simp only [Bool.or_eq_true, Bool.and_eq_true, decide_eq_true_eq] at h ⊢
  split <;> omega

theorem isLocalPrefixChar_lowerN {n : Nat} (h : isLocalPrefixChar n = true) :
    isLocalPrefixChar (lowerN n) = true := by
  unfold isLocalPrefixChar isAlphaN isDigitN at h ⊢
  unfold lowerN
  simp only [Bool.or_eq_true, Bool.and_eq_true, decide_eq_true_eq, beq_iff_eq] at h ⊢
  split <;> omega

theorem isLocalLastChar_lowerN {n : Nat} (h : isLocalLastChar n = true) :
    isLocalLastChar (lowerN n) = true := by
  unfold isLocalLastChar isAlphaN isDigitN at h ⊢
  unfold lowerN
  simp only [Bool.or_eq_true, Bool.and_eq_true, decide_eq_true_eq, beq_iff_eq] at h ⊢
  split <;> omega

theorem isLabelStartChar_lowerN {n : Nat} (h : isLabelStartChar n = true) :
    isLabelStartChar (lowerN n) = true := by
  unfold isLabelStartChar isAlphaN isDigitN at h ⊢
  unfold lowerN
  simp only [Bool.or_eq_true, Bool.and_eq_true, decide_eq_true_eq, beq_iff_eq] at h ⊢
  split <;> omega

theorem isLabelChar_lowerN {n : Nat} (h : isLabelChar n = true) :
    isLabelChar (lowerN n) = true := by
  unfold isLabelChar isAlphaN isDigitN at h ⊢
  unfold lowerN
  simp only [Bool.or_eq_true, Bool.and_eq_true, decide_eq_true_eq, beq_iff_eq] at h ⊢
  split <;> omega

theorem lowerN_eq_self_of_notUpper {n : Nat} (h : ¬(65 ≤ n ∧ n ≤ 90)) : lowerN n = n := by
  unfold lowerN; rw [if_neg h]

theorem lowerN_eq_iff {n k : Nat} (hk : k < 65) : (lowerN n = k) ↔ n = k := by
  unfold lowerN
  split <;> constructor <;> intro h <;> omega

theorem toLower_toNat_eq_iff {c : Char} {k : Nat} (hk : k < 65) :
    ((Char.toLower c).toNat = k) ↔ c.toNat = k := by
  rw [toLower_toNat]; exact lowerN_eq_iff hk

theorem splitAtFirst_lower {k : Nat} (hk : k < 65) (s : Str) :
    splitAtFirst k (lowerStr s) =
      (splitAtFirst k s).map (fun p => (lowerStr p.1, lowerStr p.2)) := by
  induction s with
  | nil => rfl
  | cons c t ih =>
    show splitAtFirst k (Char.toLower c :: lowerStr t) = _
    unfold splitAtFirst
    by_cases hc : c.toNat = k
    · rw [if_pos (by simpa using (toLower_toNat_eq_iff hk).mpr hc), if_pos (by simpa using hc)]
      rfl
    · rw [if_neg (by simp [(toLower_toNat_eq_iff hk), hc]), if_neg (by simpa using hc)]
      rw [ih]
      cases splitAtFirst k t with
      | none => rfl
      | some p => rfl

theorem isLocalPart_lower : ∀ l : Str, isLocalPart l = true → isLocalPart (lowerStr l) = true := by
  intro l
  induction l with
  | nil => intro h; simp [isLocalPart] at h
  | cons c t ih =>
    intro h
    cases t with
    | nil =>
      show isLocalPart [Char.toLower c] = true
      unfold isLocalPart at h ⊢
      rw [toLower_toNat]
      exact isLocalLastChar_lowerN h
    | cons d u =>
      simp only [isLocalPart, Bool.and_eq_true] at h
      have hrest := ih h.2
      show isLocalPart (Char.toLower c :: Char.toLower d :: lowerStr u) = true
      simp only [isLocalPart, Bool.and_eq_true]
      exact ⟨by rw [toLower_toNat]; exact isLocalPrefixChar_lowerN h.1,
             by simpa [lowerStr] using hrest⟩

theorem isLabel_lower {l : Str} (h : isLabel l = true) : isLabel (lowerStr l) = true := by
  cases l with
  | nil => simp [isLabel] at h
  | cons c t =>
    show isLabel (Char.toLower c :: lowerStr t) = true
    unfold isLabel at h ⊢
    simp only [Bool.and_eq_true, List.all_eq_true] at h ⊢
    refine ⟨by rw [toLower_toNat]; exact isLabelStartChar_lowerN h.1, ?_⟩
    intro d hd
    obtain ⟨d0, hd0, rfl⟩ := List.mem_map.mp hd
    rw [toLower_toNat]
    exact isLabelChar_lowerN (h.2 d0 hd0)

theorem isTld_lower {s : Str} (h : isTld s = true) : isTld (lowerStr s) = true := by
  unfold isTld at h ⊢
  simp only [Bool.and_eq_true, List.all_eq_true, decide_eq_true_eq] at h ⊢
  refine ⟨by simpa [lowerStr] using h.1, ?_⟩
  intro d hd
  obtain ⟨d0, hd0, rfl⟩ := List.mem_map.mp hd
  rw [toLower_toNat]
  exact isAlphaN_lowerN (h.2 d0 hd0)

theorem isDomain_none {d : Str} (hsp : splitAtFirst 46 d = none) : isDomain d = false := by
  unfold isDomain
  exact isDomainFuel_succ_none hsp

theorem isDomain_some {d lab rest : Str} (hsp : splitAtFirst 46 d = some (lab, rest)) :
    isDomain d = (isLabel lab && (isTld rest || isDomain rest)) := by
  unfold isDomain
  rw [isDomainFuel_succ_some hsp,
    isDomainFuel_eq_isDomain d.length rest (splitAtFirst_rest_lt hsp)]
  rfl

theorem isDomain_lower_aux : ∀ (n : Nat) (d : Str), d.length < n → isDomain d = true →
    isDomain (lowerStr d) = true := by
  intro n
  induction n using Nat.strong_induction_on with
  | _ n ih =>
    intro d hd h
    cases hsp : splitAtFirst 46 d with
    | none => rw [isDomain_none hsp] at h; exact absurd h (by simp)
    | some p =>
      obtain ⟨lab, rest⟩ := p
      rw [isDomain_some hsp] at h
      have hsp2 : splitAtFirst 46 (lowerStr d) = some (lowerStr lab, lowerStr rest) := by
        rw [splitAtFirst_lower (by omega) d, hsp]; rfl
      rw [isDomain_some hsp2]
      simp only [Bool.and_eq_true, Bool.or_eq_true] at h ⊢
      have hlt := splitAtFirst_rest_lt hsp
      refine ⟨isLabel_lower h.1, ?_⟩
      rcases h.2 with h2 | h2
      · exact Or.inl (isTld_lower h2)
      · exact Or.inr (ih d.length hd rest hlt h2)

theorem isDomain_lower (d : Str) (h : isDomain d = true) : isDomain (lowerStr d) = true :=
  isDomain_lower_aux (d.length + 1) d (by omega) h

theorem noDoubleDot_lower : ∀ s : Str, noDoubleDot s = true → noDoubleDot (lowerStr s) = true := by
  intro s
  induction s with
  | nil => intro _; rfl
  | cons a t ih =>
    intro h
    cases t with
    | nil => rfl
    | cons b u =>
      simp only [noDoubleDot, Bool.and_eq_true] at h
      show noDoubleDot (Char.toLower a :: Char.toLower b :: lowerStr u) = true
      simp only [noDoubleDot, Bool.and_eq_true]
      constructor
      · have ha := toLower_toNat_eq_iff (c := a) (k := 46) (by omega)
        have hb := toLower_toNat_eq_iff (c := b) (k := 46) (by omega)
        simp only [Bool.not_eq_eq_eq_not, Bool.not_true, Bool.and_eq_false_iff] at h ⊢
        rcases h.1 with h1 | h1
        · exact Or.inl (by simp_all [beq_iff_eq])
        · exact Or.inr (by simp_all [beq_iff_eq])
      · exact (by simpa [lowerStr] using ih h.2)

theorem isValidEmail_lower {s : Str} (h : isValidEmail s = true) :
    isValidEmail (lowerStr s) = true := by
  unfold isValidEmail at h
  cases hsp : splitAtFirst 64 s with
  | none => rw [hsp] at h; simp at h
  | some p =>
    obtain ⟨loc, dom⟩ := p
    rw [hsp] at h
    simp only [Bool.and_eq_true] at h
    unfold isValidEmail
    rw [splitAtFirst_lower (by omega) s, hsp,
      show (some (loc, dom)).map (fun p : Str × Str => (lowerStr p.1, lowerStr p.2)) =
        some (lowerStr loc, lowerStr dom) from rfl]
    simp only [Bool.and_eq_true]
    refine ⟨⟨⟨?_, noDoubleDot_lower s h.1.1.2⟩, isLocalPart_lower loc h.1.2⟩,
      isDomain_lower dom h.2⟩
    cases hh : s.head? with
    | none => rw [hh] at h; simp at h
    | some c =>
      rw [hh] at h
      have : (lowerStr s).head? = some (Char.toLower c) := by
        cases s with
        | nil => simp at hh
        | cons a t => simp only [List.head?_cons, Option.some.injEq] at hh; simp [lowerStr, hh]
      rw [this]
      have h46 := toLower_toNat_eq_iff (c := c) (k := 46) (by omega)
      simp only [Bool.not_eq_eq_eq_not, Bool.not_true, beq_eq_false_iff_ne, ne_eq] at h ⊢
      intro hx
      exact h.1.1.1.elim (h46.mp hx)

/-! ### Valid emails carry no surrounding whitespace, so `trim` fixes them -/

theorem isLocalPart_head {l : Str} (h : isLocalPart l = true) :
    ∃ c, l.head? = some c ∧
      (isLocalPrefixChar c.toNat = true ∨ isLocalLastChar c.toNat = true) := by
  cases l with
  | nil => simp [isLocalPart] at h
  | cons c t =>
    cases t with
    | nil => exact ⟨c, rfl, Or.inr (by simpa [isLocalPart] using h)⟩
    | cons d u =>
      simp only [isLocalPart, Bool.and_eq_true] at h
      exact ⟨c, rfl, Or.inl h.1⟩

theorem isTld_getLast {s : Str} (h : isTld s = true) :
    ∃ c, s.getLast? = some c ∧ isAlphaN c.toNat = true := by
  unfold isTld at h
  simp only [Bool.and_eq_true, List.all_eq_true, decide_eq_true_eq] at h
  have hne : s ≠ [] := by
    intro hx; rw [hx] at h; simp at h
  obtain ⟨c, hc⟩ := Option.isSome_iff_exists.mp (List.getLast?_isSome.mpr hne)
  exact ⟨c, hc, h.2 c (List.mem_of_getLast?_eq_some hc)⟩

theorem isDomain_getLast_aux : ∀ (n : Nat) (d : Str), d.length < n → isDomain d = true →
    ∃ c, d.getLast? = some c ∧ isAlphaN c.toNat = true := by
  intro n
  induction n using Nat.strong_induction_on with
  | _ n ihn =>
    intro d hd h
    cases hsp : splitAtFirst 46 d with
    | none => rw [isDomain_none hsp] at h; exact absurd h (by simp)
    | some p =>
      obtain ⟨lab, rest⟩ := p
      have ih := ihn d.length hd rest (splitAtFirst_rest_lt hsp)
      rw [isDomain_some hsp] at h
      simp only [Bool.and_eq_true, Bool.or_eq_true] at h
      obtain ⟨cdot, _, rfl⟩ := splitAtFirst_eq hsp
      have step : ∀ c, rest.getLast? = some c → isAlphaN c.toNat = true →
          ∃ c2, (lab ++ cdot :: rest).getLast? = some c2 ∧ isAlphaN c2.toNat = true := by
        intro c hc halpha
        refine ⟨c, ?_, halpha⟩
        rw [List.getLast?_append, show cdot :: rest = [cdot] ++ rest from rfl,
          List.getLast?_append, hc]
        rfl
      rcases h.2 with h2 | h2
      · obtain ⟨c, hc, halpha⟩ := isTld_getLast h2
        exact step c hc halpha
      · obtain ⟨c, hc, halpha⟩ := ih h2
        exact step c hc halpha

theorem isDomain_getLast (d : Str) (h : isDomain d = true) :
    ∃ c, d.getLast? = some c ∧ isAlphaN c.toNat = true :=
  isDomain_getLast_aux (d.length + 1) d (by omega) h

theorem ws_disjoint_local {n : Nat}
    (h : isLocalPrefixChar n = true ∨ isLocalLastChar n = true) : isJsWsN n = false := by
  unfold isLocalPrefixChar isLocalLastChar isAlphaN isDigitN at h
  unfold isJsWsN
  simp only [Bool.or_eq_true, Bool.and_eq_true, decide_eq_true_eq, beq_iff_eq] at h
  simp only [Bool.or_eq_false_iff, beq_eq_false_iff_ne, ne_eq]
  omega

theorem ws_disjoint_alpha {n : Nat} (h : isAlphaN n = true) : isJsWsN n = false := by
  unfold isAlphaN at h
  unfold isJsWsN
  simp only [Bool.or_eq_true, Bool.and_eq_true, decide_eq_true_eq] at h
  simp only [Bool.or_eq_false_iff, beq_eq_false_iff_ne, ne_eq]
  omega

theorem isValidEmail_trim {s : Str} (h : isValidEmail s = true) : trimStr s = s := by
  unfold isValidEmail at h
  cases hsp : splitAtFirst 64 s with
  | none => rw [hsp] at h; simp at h
  | some p =>
    obtain ⟨loc, dom⟩ := p
    rw [hsp] at h
    simp only [Bool.and_eq_true] at h
    obtain ⟨camp, _, hs⟩ := splitAtFirst_eq hsp
    have hne : s ≠ [] := by rw [hs]; simp
    apply trimStr_eq_self hne
    · intro c hc
      obtain ⟨c0, hh0, hcls⟩ := isLocalPart_head h.1.2
      have hlocne : loc ≠ [] := by
        intro hx; rw [hx] at hh0; simp at hh0
      have : s.head? = some c0 := by
        rw [hs]
        cases loc with
        | nil => exact absurd rfl hlocne
        | cons a t => simpa using hh0
      rw [this] at hc
      cases hc
      exact ws_disjoint_local hcls
    · intro c hc
      obtain ⟨c0, hl0, halpha⟩ := isDomain_getLast dom h.2
      have hdomne : dom ≠ [] := by
        intro hx; rw [hx] at hl0; simp at hl0
      have : s.getLast? = some c0 := by
        rw [hs, List.getLast?_append, show camp :: dom = [camp] ++ dom from rfl,
          List.getLast?_append, hl0]
        rfl
      rw [this] at hc
      cases hc
      exact ws_disjoint_alpha halpha

/-- The transform of `emailLower` in routes/authors.js:
`(e) => e.toLowerCase().trim()`. -/
def emailNormalize (s : Str) : Str := trimStr (lowerStr s)

theorem emailNormalize_eq_lower {s : Str} (h : isValidEmail s = true) :
    emailNormalize s = lowerStr s := by
  unfold emailNormalize
  exact isValidEmail_trim (isValidEmail_lower h)

theorem emailNormalize_valid {s : Str} (h : isValidEmail s = true) :
    isValidEmail (emailNormalize s) = true := by
  rw [emailNormalize_eq_lower h]
  exact isValidEmail_lower h

theorem emailNormalize_idem {s : Str} (h : isValidEmail s = true) :
    emailNormalize (emailNormalize s) = emailNormalize s := by
  rw [emailNormalize_eq_lower h, emailNormalize_eq_lower (isValidEmail_lower h),
    lowerStr_idem]

/-! ## Identifier Codec

`parseId` in routes/authors.js and routes/books.js wraps `new ObjectId(id)`
(bson, driver v5+): a string is accepted exactly when it is 24 hexadecimal
characters; anything else throws, converted to an exposed 400 error.
The 12-byte handle is modelled by its 24 hex nibbles; serialization
(`toString` / `toHexString`) emits lowercase hex. -/

abbrev OId := List (Fin 16)

def isHexDigitN (n : Nat) : Bool :=
  (48 ≤ n && n ≤ 57) || (97 ≤ n && n ≤ 102) || (65 ≤ n && n ≤ 70)

/-- The bson ObjectId wire format: exactly 24 hex characters. -/
def is24Hex (s : Str) : Bool := s.length == 24 && s.all (fun c => isHexDigitN c.toNat)

def hexValN (n : Nat) : Nat := if n ≤ 57 then n - 48 else if n ≤ 70 then n - 55 else n - 87

def decodeChar (c : Char) : Fin 16 := ⟨hexValN c.toNat % 16, Nat.mod_lt _ (by omega)⟩

def hexDecode (s : Str) : OId := s.map decodeChar

structure IdError where
  message : Str
  statusCode : Nat
  expose : Bool
deriving DecidableEq

/-- The error thrown by `parseId`: `Invalid id format`, statusCode 400, exposed. -/
def invalidIdError : IdError := ⟨str "Invalid id format", 400, true⟩

/-- `parseId` from routes/authors.js (identical in routes/books.js). -/
def parseId (s : Str) : Except IdError OId :=
  if is24Hex s then .ok (hexDecode s) else .error invalidIdError

/-- bson hex serialization: nibble to lowercase hex character. -/
def hexCharOf (v : Fin 16) : Char :=
  if v.val < 10 then Char.ofNat (48 + v.val) else Char.ofNat (87 + v.val)

/-- bson `ObjectId.toString()` / `toHexString()`: lowercase hex. -/
def oidToHex (o : OId) : Str := o.map hexCharOf

theorem toNat_ofNat_valid {k : Nat} (h : k < 55296) : (Char.ofNat k).toNat = k := by
  have hv : k.isValidChar := Or.inl h
  rw [Char.ofNat, dif_pos hv]
  simp [Char.ofNatAux, Char.toNat, UInt32.toNat]

theorem hex_round_nat {n : Nat}
    (h : (48 ≤ n ∧ n ≤ 57) ∨ (97 ≤ n ∧ n ≤ 102) ∨ (65 ≤ n ∧ n ≤ 70)) :
    (if hexValN n % 16 < 10 then 48 + hexValN n % 16 else 87 + hexValN n % 16) = lowerN n := by
  unfold hexValN lowerN
  rcases h with h | h | h
  · rw [if_pos (show n ≤ 57 by omega), Nat.mod_eq_of_lt (by omega),
      if_pos (by omega), if_neg (by omega)]
    omega
  · rw [if_neg (show ¬n ≤ 57 by omega), if_neg (show ¬n ≤ 70 by omega),
      Nat.mod_eq_of_lt (by omega), if_neg (by omega), if_neg (by omega)]
    omega
  · rw [if_neg (show ¬n ≤ 57 by omega), if_pos (show n ≤ 70 by omega),
      Nat.mod_eq_of_lt (by omega), if_neg (by omega), if_pos (by omega)]
    omega

theorem decodeChar_round {c : Char} (h : isHexDigitN c.toNat = true) :
    hexCharOf (decodeChar c) = Char.toLower c := by
  apply char_eq_of_toNat_eq
  rw [toLower_toNat]
  unfold isHexDigitN at h
  simp only [Bool.or_eq_true, Bool.and_eq_true, decide_eq_true_eq] at h
  unfold hexCharOf decodeChar
  split
  · next hl =>
    rw [toNat_ofNat_valid (by omega)]
    have hr := hex_round_nat (n := c.toNat) (by tauto)
    rwa [if_pos hl] at hr
  · next hl =>
    rw [toNat_ofNat_valid (by omega)]
    have hr := hex_round_nat (n := c.toNat) (by tauto)
    rwa [if_neg hl] at hr

theorem oidToHex_hexDecode {s : Str} (h : is24Hex s = true) :
    oidToHex (hexDecode s) = lowerStr s := by
  unfold is24Hex at h
  simp only [Bool.and_eq_true, List.all_eq_true] at h
  unfold oidToHex hexDecode lowerStr
  rw [List.map_map]
  apply List.map_congr_left
  intro c hc
  exact decodeChar_round (h.2 c hc)

/-! ## JSON values and the zod Schema Validator

Payload values are JSON (JS numbers modelled as ℚ). A zod object schema is
a list of field rules applied in declaration order: unknown keys are
stripped (default zod "strip" mode), missing required keys and failing
field checks produce issues keyed by the field name, and all issues are
collected before failing. -/

inductive Json where
  | null : Json
  | bool : Bool → Json
  | num : ℚ → Json
  | str : Str → Json
  | arr : List Json → Json
  | obj : List (Str × Json) → Json

/-- Normalized field values as stored (post-transform): trimmed strings,
parsed dates, parsed ObjectIds, numbers, booleans, string arrays. -/
inductive Val where
  | str : Str → Val
  | num : ℚ → Val
  | bool : Bool → Val
  | date : Nat → Nat → Nat → Val
  | oid : OId → Val
  | arrStr : List Str → Val
deriving DecidableEq

/-- Calendar dates as (year, month, day), the observable content of the
`Date` produced from an RFC3339 full-date at UTC midnight. -/
structure DateYMD where
  y : Nat
  m : Nat
  d : Nat
deriving DecidableEq

def isLeap (y : Nat) : Bool := (y % 4 == 0 && y % 100 != 0) || y % 400 == 0

/-- Month/day validity per the zod 3.23 full-date regex (Gregorian leap rule). -/
def validMD (y m d : Nat) : Bool :=
  (1 ≤ d) && (
    ((m == 1 || m == 3 || m == 5 || m == 7 || m == 8 || m == 10 || m == 12) && d ≤ 31) ||
    ((m == 4 || m == 6 || m == 9 || m == 11) && d ≤ 30) ||
    (m == 2 && d ≤ 28) ||
    (m == 2 && d == 29 && isLeap y))

def isDigitCh (c : Char) : Bool := isDigitN c.toNat

def digitVal (c : Char) : Nat := c.toNat - 48

/-- `z.string().date()`: the string must be `YYYY-MM-DD` with valid ranges. -/
def parseDate : Str → Option DateYMD
  | [y1, y2, y3, y4, h1, m1, m2, h2, d1, d2] =>
    if isDigitCh y1 && isDigitCh y2 && isDigitCh y3 && isDigitCh y4 &&
       (h1.toNat == 45) && isDigitCh m1 && isDigitCh m2 && (h2.toNat == 45) &&
       isDigitCh d1 && isDigitCh d2 then
      let y := ((digitVal y1 * 10 + digitVal y2) * 10 + digitVal y3) * 10 + digitVal y4
      let m := digitVal m1 * 10 + digitVal m2
      let d := digitVal d1 * 10 + digitVal d2
      if validMD y m d then some ⟨y, m, d⟩ else none
    else none
  | _ => none

/-- `d <= new Date()` for a birthdate at UTC midnight is equivalent to the
date triple being lexicographically ≤ today's UTC date. -/
def dateLe (a b : DateYMD) : Bool :=
  a.y < b.y || (a.y == b.y && (a.m < b.m || (a.m == b.m && a.d ≤ b.d)))

/-- Abstraction of the WHATWG URL parser behind `z.string().url()` (the
external `new URL(s)` collaborator): a letter scheme, a colon, two slashes
and a nonempty remainder. No claim depends on its exact acceptance. -/
def isValidUrl (s : Str) : Bool :=
  match splitAtFirst 58 s with
  | none => false
  | some (scheme, rest) =>
    decide (1 ≤ scheme.length) && scheme.all (fun c => isAlphaN c.toNat) &&
    (match rest with
     | c1 :: c2 :: r => c1.toNat == 47 && c2.toNat == 47 && decide (1 ≤ r.length)
     | _ => false)

/-- `z.string().trim().min(1)` (nonEmptyTrimmed): trim, then require length ≥ 1. -/
def parseNonEmptyTrimmed : Json → Option Val
  | .str s => if 1 ≤ (trimStr s).length then some (.str (trimStr s)) else none
  | _ => none

/-- `z.string().email().transform((e) => e.toLowerCase().trim())` (emailLower). -/
def parseEmailField : Json → Option Val
  | .str s => if isValidEmail s then some (.str (emailNormalize s)) else none
  | _ => none

/-- `z.string().date().transform(s => new Date(...)).refine(d => d <= new Date())`
(birthdateAsDate), with `today` the UTC date at validation time. -/
def parseBirthdateField (today : DateYMD) : Json → Option Val
  | .str s =>
    match parseDate s with
    | none => none
    | some d => if dateLe d today then some (.date d.y d.m d.d) else none
  | _ => none

/-- `z.string().url().trim().optional()` (website). -/
def parseWebsiteField : Json → Option Val
  | .str s => if isValidUrl s then some (.str (trimStr s)) else none
  | _ => none

/-- `z.string().min(k)` (title with k = 1, isbn with k = 10). -/
def parseMinLenString (k : Nat) : Json → Option Val
  | .str s => if k ≤ s.length then some (.str s) else none
  | _ => none

/-- `ObjectIdString`: regex `^[0-9a-fA-F]{24}$`, transform `new ObjectId(s)`. -/
def parseObjectIdField : Json → Option Val
  | .str s => if is24Hex s then some (.oid (hexDecode s)) else none
  | _ => none

/-- `Number.isInteger` on an exact value. -/
def isIntQ (q : ℚ) : Bool := q.den == 1

/-- `z.number().int().gte(1400).lte(maxYear)` (publishedYear); `maxYear` is
the plain number obtained by evaluating `new Date().getFullYear() + 1` when
the schema object was constructed (module load). -/
def parsePublishedYear (maxYear : ℚ) : Json → Option Val
  | .num q =>
    if isIntQ q && (1400 : ℚ) ≤ q && q ≤ maxYear then some (.num q) else none
  | _ => none

/-- `z.number().int().positive()` (pages). -/
def parsePositiveInt : Json → Option Val
  | .num q => if isIntQ q && (0 : ℚ) < q then some (.num q) else none
  | _ => none

/-- `z.boolean()` (inStock). -/
def parseBoolField : Json → Option Val
  | .bool b => some (.bool b)
  | _ => none

/-- `z.number().nonnegative()` (price). -/
def parseNonNegNumber : Json → Option Val
  | .num q => if (0 : ℚ) ≤ q then some (.num q) else none
  | _ => none

def allStrings : List Json → Option (List Str)
  | [] => some []
  | .str s :: t => (allStrings t).map (s :: ·)
  | _ => none

/-- `z.array(z.string()).min(1)` (genres). -/
def parseGenres : Json → Option Val
  | .arr xs =>
    match allStrings xs with
    | none => none
    | some ss => if 1 ≤ ss.length then some (.arrStr ss) else none
  | _ => none

/-- One declared field of a zod object schema: key, required flag, and the
field check+transform (simplified to `Option`: per-field issue text is not
load-bearing, the issue is keyed by the field name). -/
structure FieldSpec where
  key : Str
  required : Bool
  parse : Json → Option Val

/-- `AuthorSchema` in routes/authors.js. -/
def authorShape (today : DateYMD) : List FieldSpec :=
  [⟨str "firstName", true, parseNonEmptyTrimmed⟩,
   ⟨str "lastName", true, parseNonEmptyTrimmed⟩,
   ⟨str "email", true, parseEmailField⟩,
   ⟨str "birthdate", true, parseBirthdateField today⟩,
   ⟨str "nationality", true, parseNonEmptyTrimmed⟩,
   ⟨str "website", false, parseWebsiteField⟩]

/-- `BookSchema` in routes/books.js; `maxYear` is the year bound constant
(`new Date().getFullYear() + 1`) evaluated when the schema was constructed. -/
def bookShape (maxYear : ℚ) : List FieldSpec :=
  [⟨str "title", true, parseMinLenString 1⟩,
   ⟨str "isbn", true, parseMinLenString 10⟩,
   ⟨str "authorId", true, parseObjectIdField⟩,
   ⟨str "publishedYear", true, parsePublishedYear maxYear⟩,
   ⟨str "genres", true, parseGenres⟩,
   ⟨str "pages", true, parsePositiveInt⟩,
   ⟨str "inStock", true, parseBoolField⟩,
   ⟨str "price", true, parseNonNegNumber⟩]

abbrev Doc := List (Str × Val)

/-- Key lookup in a parsed JS object (`JSON.parse` keeps the last duplicate). -/
def lookupField (fields : List (Str × Json)) (k : Str) : Option Json :=
  (fields.reverse.find? (fun p => decide (p.1 = k))).map (·.2)

/-- Process one declared field against the payload, extending the issues
and output accumulated for the later fields. -/
def runField (fs : FieldSpec) (fields : List (Str × Json)) (r : List Str × Doc) :
    List Str × Doc :=
  match lookupField fields fs.key with
  | none => (if fs.required then fs.key :: r.1 else r.1, r.2)
  | some j =>
    match fs.parse j with
    | none => (fs.key :: r.1, r.2)
    | some v => (r.1, (fs.key, v) :: r.2)

/-- Walk the declared shape in order, collecting field issues and building
the output document from declared keys only (zod strip mode). -/
def runShape : List FieldSpec → List (Str × Json) → List Str × Doc
  | [], _ => ([], [])
  | fs :: rest, fields => runField fs fields (runShape rest fields)

inductive ZodError where
  | rootType : ZodError
  | fieldIssues : List Str → ZodError
deriving DecidableEq

/-- `schema.parse(body)`: reject non-objects with a root invalid_type issue,
otherwise run the shape and fail when any field issue was collected. -/
def zodParse (shape : List FieldSpec) : Json → Except ZodError Doc
  | .obj fields =>
    match runShape shape fields with
    | ([], doc) => .ok doc
    | (k :: ks, _) => .error (.fieldIssues (k :: ks))
  | _ => .error .rootType

/-- `AuthorSchema.parse` at a validation instant whose UTC date is `today`. -/
def validateAuthor (today : DateYMD) : Json → Except ZodError Doc :=
  zodParse (authorShape today)

/-- `BookSchema.parse`; the year bound was fixed at module load. -/
def validateBook (maxYear : ℚ) : Json → Except ZodError Doc :=
  zodParse (bookShape maxYear)

/-- Override one key of a JS object: with last-duplicate-wins lookup,
appending the pair is an override. -/
def setField (fields : List (Str × Json)) (k : Str) (v : Json) : List (Str × Json) :=
  fields ++ [(k, v)]

theorem lookupField_setField (fields : List (Str × Json)) (k k2 : Str) (v : Json) :
    lookupField (setField fields k v) k2 =
      if k2 = k then some v else lookupField fields k2 := by
  unfold lookupField setField
  rw [List.reverse_append, List.reverse_singleton, List.singleton_append, List.find?_cons]
  by_cases hk : k2 = k
  · rw [if_pos hk]
    subst hk
    rw [show decide ((k2, v).1 = k2) = true from by simp]
    rfl
  · rw [if_neg hk]
    rw [show decide ((k, v).1 = k2) = false from by
      simp only [decide_eq_false_iff_not]
      exact fun h => hk h.symm]

theorem runField_missing {fs : FieldSpec} {fields : List (Str × Json)}
    {r : List Str × Doc} (h : lookupField fields fs.key = none) :
    runField fs fields r = (if fs.required then fs.key :: r.1 else r.1, r.2) := by
  unfold runField
  rw [h]

theorem runField_bad {fs : FieldSpec} {fields : List (Str × Json)}
    {r : List Str × Doc} {j : Json}
    (h : lookupField fields fs.key = some j) (hp : fs.parse j = none) :
    runField fs fields r = (fs.key :: r.1, r.2) := by
  unfold runField
  rw [h]
  show (match fs.parse j with
        | none => (fs.key :: r.1, r.2)
        | some v => (r.1, (fs.key, v) :: r.2)) = (fs.key :: r.1, r.2)
  rw [hp]

theorem runField_good {fs : FieldSpec} {fields : List (Str × Json)}
    {r : List Str × Doc} {j : Json} {v : Val}
    (h : lookupField fields fs.key = some j) (hp : fs.parse j = some v) :
    runField fs fields r = (r.1, (fs.key, v) :: r.2) := by
  unfold runField
  rw [h]
  show (match fs.parse j with
        | none => (fs.key :: r.1, r.2)
        | some w => (r.1, (fs.key, w) :: r.2)) = (r.1, (fs.key, v) :: r.2)
  rw [hp]

/-- `runField` only extends the accumulated issues. -/
theorem runField_issues_mono {fs : FieldSpec} {fields : List (Str × Json)}
    {r : List Str × Doc} {k : Str} (h : k ∈ r.1) : k ∈ (runField fs fields r).1 := by
  cases hlook : lookupField fields fs.key with
  | none =>
    rw [runField_missing hlook]
    cases fs.required <;> simp [h]
  | some j =>
    cases hp : fs.parse j with
    | none => rw [runField_bad hlook hp]; simp [h]
    | some v => rw [runField_good hlook hp]; simpa using h

/-- A required field absent from the payload contributes its key to the
collected issues. -/
theorem runShape_missing {shape : List FieldSpec} {fields : List (Str × Json)}
    {fs : FieldSpec} (hmem : fs ∈ shape) (hreq : fs.required = true)
    (hlook : lookupField fields fs.key = none) :
    fs.key ∈ (runShape shape fields).1 := by
  induction shape with
  | nil => simp at hmem
  | cons g rest ih =>
    show fs.key ∈ (runField g fields (runShape rest fields)).1
    rcases List.mem_cons.mp hmem with rfl | hmem2
    · rw [runField_missing hlook, hreq]
      simp
    · exact runField_issues_mono (ih hmem2)

/-- A present field whose check fails contributes its key to the issues. -/
theorem runShape_badField {shape : List FieldSpec} {fields : List (Str × Json)}
    {fs : FieldSpec} {j : Json} (hmem : fs ∈ shape)
    (hlook : lookupField fields fs.key = some j) (hparse : fs.parse j = none) :
    fs.key ∈ (runShape shape fields).1 := by
  induction shape with
  | nil => simp at hmem
  | cons g rest ih =>
    show fs.key ∈ (runField g fields (runShape rest fields)).1
    rcases List.mem_cons.mp hmem with rfl | hmem2
    · rw [runField_bad hlook hparse]
      simp
    · exact runField_issues_mono (ih hmem2)

theorem zodParse_obj_ok {shape : List FieldSpec} {fields : List (Str × Json)}
    {doc : Doc} (h : runShape shape fields = ([], doc)) :
    zodParse shape (.obj fields) = .ok doc := by
  show (match runShape shape fields with
        | ([], d) => (Except.ok d : Except ZodError Doc)
        | (k :: ks, _) => Except.error (ZodError.fieldIssues (k :: ks))) = .ok doc
  rw [h]

theorem zodParse_obj_err {shape : List FieldSpec} {fields : List (Str × Json)}
    {a : Str} {t : List Str} {d : Doc} (h : runShape shape fields = (a :: t, d)) :
    zodParse shape (.obj fields) = .error (.fieldIssues (a :: t)) := by
  show (match runShape shape fields with
        | ([], d) => (Except.ok d : Except ZodError Doc)
        | (k :: ks, _) => Except.error (ZodError.fieldIssues (k :: ks))) = _
  rw [h]

/-- Any collected issue makes the whole parse fail, listing that key. -/
theorem zodParse_error_of_issue {shape : List FieldSpec} {fields : List (Str × Json)}
    {k : Str} (hk : k ∈ (runShape shape fields).1) :
    ∃ ks, zodParse shape (.obj fields) = .error (.fieldIssues ks) ∧ k ∈ ks := by
  cases hrs : runShape shape fields with
  | mk is doc =>
    cases is with
    | nil => rw [hrs] at hk; simp at hk
    | cons a t =>
      rw [hrs] at hk
      exact ⟨a :: t, zodParse_obj_err hrs, hk⟩

/-- On success, a parse of a non-object never happens and the issue list is
empty: recover the `runShape` outcome from a successful `zodParse`. -/
theorem zodParse_ok_inv {shape : List FieldSpec} {j : Json} {doc : Doc}
    (h : zodParse shape j = .ok doc) :
    ∃ fields, j = .obj fields ∧ runShape shape fields = ([], doc) := by
  cases j with
  | obj fields =>
    refine ⟨fields, rfl, ?_⟩
    cases hrs : runShape shape fields with
    | mk is d =>
      cases is with
      | nil => rw [zodParse_obj_ok hrs] at h; cases h; rfl
      | cons a t => rw [zodParse_obj_err hrs] at h; cases h
  | null => cases h
  | bool b => cases h
  | num q => cases h
  | str s => cases h
  | arr xs => cases h

/-- Every output entry comes from a declared field whose check succeeded on
the looked-up payload value. -/
theorem runShape_mem {shape : List FieldSpec} {fields : List (Str × Json)} :
    ∀ kv ∈ (runShape shape fields).2,
      ∃ fs ∈ shape, fs.key = kv.1 ∧
        ∃ j, lookupField fields fs.key = some j ∧ fs.parse j = some kv.2 := by
  induction shape with
  | nil => intro kv h; simp [runShape] at h
  | cons g rest ih =>
    intro kv h
    replace h : kv ∈ (runField g fields (runShape rest fields)).2 := h
    cases hlook : lookupField fields g.key with
    | none =>
      rw [runField_missing hlook] at h
      obtain ⟨fs, h1, h2⟩ := ih kv h
      exact ⟨fs, List.mem_cons_of_mem g h1, h2⟩
    | some j =>
      cases hp : g.parse j with
      | none =>
        rw [runField_bad hlook hp] at h
        obtain ⟨fs, h1, h2⟩ := ih kv h
        exact ⟨fs, List.mem_cons_of_mem g h1, h2⟩
      | some v =>
        rw [runField_good hlook hp] at h
        rcases List.mem_cons.mp h with rfl | h2
        · exact ⟨g, List.mem_cons_self g rest, rfl, j, hlook, hp⟩
        · obtain ⟨fs, h1, h2⟩ := ih kv h2
          exact ⟨fs, List.mem_cons_of_mem g h1, h2⟩

/-- When no issues were collected, every required field produced an entry. -/
theorem runShape_required {shape : List FieldSpec} {fields : List (Str × Json)}
    (hok : (runShape shape fields).1 = []) :
    ∀ fs ∈ shape, fs.required = true → ∃ v, (fs.key, v) ∈ (runShape shape fields).2 := by
  induction shape with
  | nil => intro fs h; simp at h
  | cons g rest ih =>
    intro fs hmem hreq
    replace hok : (runField g fields (runShape rest fields)).1 = [] := hok
    show ∃ v, (fs.key, v) ∈ (runField g fields (runShape rest fields)).2
    cases hlook : lookupField fields g.key with
    | none =>
      rw [runField_missing hlook] at hok ⊢
      cases hr : g.required with
      | true => rw [hr] at hok; simp at hok
      | false =>
        rw [hr] at hok
        rcases List.mem_cons.mp hmem with rfl | hmem2
        · rw [hreq] at hr; exact absurd hr (by simp)
        · exact ih hok fs hmem2 hreq
    | some j =>
      cases hp : g.parse j with
      | none => rw [runField_bad hlook hp] at hok; simp at hok
      | some v =>
        rw [runField_good hlook hp] at hok ⊢
        rcases List.mem_cons.mp hmem with rfl | hmem2
        · exact ⟨v, List.mem_cons_self _ _⟩
        · obtain ⟨v2, hv2⟩ := ih hok fs hmem2 hreq
          exact ⟨v2, List.mem_cons_of_mem _ hv2⟩

/-- The shape walk only consults the payload through per-key lookups: two
payloads whose lookups agree (up to equal check results) validate alike. -/
theorem runShape_congr {shape : List FieldSpec} {f1 f2 : List (Str × Json)}
    (h : ∀ fs ∈ shape,
      (lookupField f1 fs.key = none ∧ lookupField f2 fs.key = none) ∨
      (∃ j1 j2, lookupField f1 fs.key = some j1 ∧ lookupField f2 fs.key = some j2 ∧
        fs.parse j1 = fs.parse j2)) :
    runShape shape f1 = runShape shape f2 := by
  induction shape with
  | nil => rfl
  | cons g rest ih =>
    have hrest := ih (fun fs hm => h fs (List.mem_cons_of_mem g hm))
    show runField g f1 (runShape rest f1) = runField g f2 (runShape rest f2)
    rw [hrest]
    rcases h g (List.mem_cons_self g rest) with ⟨h1, h2⟩ | ⟨j1, j2, h1, h2, hp⟩
    · rw [runField_missing h1, runField_missing h2]
    · cases hp2 : g.parse j2 with
      | none =>
        rw [runField_bad h1 (hp.trans hp2), runField_bad h2 hp2]
      | some v =>
        rw [runField_good h1 (hp.trans hp2), runField_good h2 hp2]

/-! ## Authorization Gate (middleware/auth.js)

Configuration is read once at process start. `ENFORCE` is
`(hasAuthConfig && !AUTH_DISABLED) || (PROD && !AUTH_DISABLED)`; `jwtCheck`
and the scope guard are no-ops when not enforcing. The external JWT
verifier's verdict is abstracted as `Cred.verified`. -/

structure Cred where
  verified : Bool
  scopes : List Str
deriving DecidableEq

structure AuthCfg where
  authDisable : Bool
  hasAuthConfig : Bool
  prod : Bool
deriving DecidableEq

def enforce (c : AuthCfg) : Bool :=
  (c.hasAuthConfig && !c.authDisable) || (c.prod && !c.authDisable)

def credValid : Option Cred → Bool
  | none => false
  | some c => c.verified

def hasScope (oc : Option Cred) (s : Str) : Bool :=
  match oc with
  | none => false
  | some c => decide (s ∈ c.scopes)

def writeScope : Str := str "write:library"

/-! ## Persistence Adapter and HTTP surface -/

structure Store where
  docs : List (OId × Doc)
  counter : Nat
deriving DecidableEq

def freshOId (n : Nat) : OId :=
  (List.range 24).map (fun i => ⟨n / 16 ^ i % 16, Nat.mod_lt _ (by omega)⟩)

def Store.insertOne (st : Store) (d : Doc) : OId × Store :=
  let oid := freshOId st.counter
  (oid, ⟨st.docs ++ [(oid, d)], st.counter + 1⟩)

def Store.findOne (st : Store) (oid : OId) : Option Doc :=
  (st.docs.find? (fun p => decide (p.1 = oid))).map (·.2)

def Store.replaceOne (st : Store) (oid : OId) (d : Doc) : Nat × Store :=
  if st.docs.any (fun p => decide (p.1 = oid)) then
    (1, ⟨st.docs.map (fun p => if p.1 = oid then (oid, d) else p), st.counter⟩)
  else (0, st)

def Store.deleteOne (st : Store) (oid : OId) : Nat × Store :=
  if st.docs.any (fun p => decide (p.1 = oid)) then
    (1, ⟨st.docs.eraseP (fun p => decide (p.1 = oid)), st.counter⟩)
  else (0, st)

structure Request where
  cred : Option Cred
  isJson : Bool
  idParam : Str
  body : Json

inductive Resp where
  | okList : List (OId × Doc) → Resp
  | okDoc : Doc → Resp
  | created : OId → Resp
  | noContent : Resp
  | invalidId : Resp
  | validationFailed : ZodError → Resp
  | unauthenticated : Resp
  | forbidden : Resp
  | notFound : Resp
  | unsupportedMedia : Resp
deriving DecidableEq

def Resp.status : Resp → Nat
  | .okList _ => 200
  | .okDoc _ => 200
  | .created _ => 201
  | .noContent => 204
  | .invalidId => 400
  | .validationFailed _ => 400
  | .unauthenticated => 401
  | .forbidden => 403
  | .notFound => 404
  | .unsupportedMedia => 415

inductive StoreCall where
  | find : StoreCall
  | findOne : StoreCall
  | insertOne : StoreCall
  | replaceOne : StoreCall
  | deleteOne : StoreCall
deriving DecidableEq

/-- Outcome of one request: the response, the store state afterwards, and
the store operations that were attempted. -/
structure HResult where
  resp : Resp
  store : Store
  calls : List StoreCall
deriving DecidableEq

/-- The `jwtCheck, needWrite` middleware chain attached to every mutating
route: 401 when enforcing and the credential is absent/invalid, then 403
when enforcing and the write scope is missing; no-ops otherwise. -/
def authGate (cfg : AuthCfg) (r : Request) : Option Resp :=
  if enforce cfg && !credValid r.cred then some .unauthenticated
  else if enforce cfg && !hasScope r.cred writeScope then some .forbidden
  else none

/-- `router.post('/', jwtCheck, needWrite, handler)`: content-type gate,
schema validation, then `insertOne`, answering 201 with the new id. -/
def postHandler (validate : Json → Except ZodError Doc)
    (cfg : AuthCfg) (r : Request) (st : Store) : HResult :=
  match authGate cfg r with
  | some resp => ⟨resp, st, []⟩
  | none =>
    if !r.isJson then ⟨.unsupportedMedia, st, []⟩
    else
      match validate r.body with
      | .error e => ⟨.validationFailed e, st, []⟩
      | .ok doc =>
        let p := st.insertOne doc
        ⟨.created p.1, p.2, [.insertOne]⟩

/-- `router.put('/:id', jwtCheck, needWrite, handler)`: content-type gate,
id parsing, schema validation, then `replaceOne`; 404 when nothing matched,
else 204. -/
def putHandler (validate : Json → Except ZodError Doc)
    (cfg : AuthCfg) (r : Request) (st : Store) : HResult :=
  match authGate cfg r with
  | some resp => ⟨resp, st, []⟩
  | none =>
    if !r.isJson then ⟨.unsupportedMedia, st, []⟩
    else
      match parseId r.idParam with
      | .error _ => ⟨.invalidId, st, []⟩
      | .ok oid =>
        match validate r.body with
        | .error e => ⟨.validationFailed e, st, []⟩
        | .ok doc =>
          let p := st.replaceOne oid doc
          if p.1 = 0 then ⟨.notFound, p.2, [.replaceOne]⟩
          else ⟨.noContent, p.2, [.replaceOne]⟩

/-- `router.delete('/:id', jwtCheck, needWrite, handler)`: id parsing then
`deleteOne`; 404 when nothing was deleted, else 204 (no content-type gate). -/
def deleteHandler (cfg : AuthCfg) (r : Request) (st : Store) : HResult :=
  match authGate cfg r with
  | some resp => ⟨resp, st, []⟩
  | none =>
    match parseId r.idParam with
    | .error _ => ⟨.invalidId, st, []⟩
    | .ok oid =>
      let p := st.deleteOne oid
      if p.1 = 0 then ⟨.notFound, p.2, [.deleteOne]⟩
      else ⟨.noContent, p.2, [.deleteOne]⟩

/-- `router.get('/:id', handler)`: no auth middleware; id parsing then
`findOne`; 404 when absent. -/
def getByIdHandler (cfg : AuthCfg) (r : Request) (st : Store) : HResult :=
  match parseId r.idParam with
  | .error _ => ⟨.invalidId, st, []⟩
  | .ok oid =>
    match st.findOne oid with
    | none => ⟨.notFound, st, [.findOne]⟩
    | some d => ⟨.okDoc d, st, [.findOne]⟩

/-- `router.get('/', handler)`: no auth middleware; returns all documents. -/
def listHandler (cfg : AuthCfg) (r : Request) (st : Store) : HResult :=
  ⟨.okList st.docs, st, [.find]⟩

/-! The two resource handlers (structurally identical, per-schema). -/

def postAuthor (today : DateYMD) : AuthCfg → Request → Store → HResult :=
  postHandler (validateAuthor today)

def putAuthor (today : DateYMD) : AuthCfg → Request → Store → HResult :=
  putHandler (validateAuthor today)

def postBook (maxYear : ℚ) : AuthCfg → Request → Store → HResult :=
  postHandler (validateBook maxYear)

def putBook (maxYear : ℚ) : AuthCfg → Request → Store → HResult :=
  putHandler (validateBook maxYear)

/-! ## Concrete fixtures used by witnesses and counterexamples -/

def emptyStore : Store := ⟨[], 0⟩

/-- Disabled enforcement configuration (`AUTH_DISABLE=true`). -/
def cfgDisabled : AuthCfg := ⟨true, false, false⟩

/-- Secure configuration (Auth0 audience/issuer present, not disabled). -/
def cfgSecure : AuthCfg := ⟨false, true, true⟩

def reqBadId : Request := ⟨none, true, str "zzz", .null⟩

def authorFieldsW : List (Str × Json) :=
  [(str "firstName", .str (str "Ada")),
   (str "lastName", .str (str "Lovelace")),
   (str "email", .str (str "Ada@Example.com")),
   (str "birthdate", .str (str "1815-12-10")),
   (str "nationality", .str (str "British"))]

def authorDocW : Doc :=
  [(str "firstName", .str (str "Ada")),
   (str "lastName", .str (str "Lovelace")),
   (str "email", .str (str "ada@example.com")),
   (str "birthdate", .date 1815 12 10),
   (str "nationality", .str (str "British"))]

def todayW : DateYMD := ⟨2026, 1, 1⟩

def bookFieldsValid : List (Str × Json) :=
  [(str "title", .str (str "The Hobbit")),
   (str "isbn", .str (str "9780547928227")),
   (str "authorId", .str (str "665f6a0f2c3d4b1a9f0a1234")),
   (str "publishedYear", .num 1937),
   (str "genres", .arr [.str (str "Fantasy")]),
   (str "pages", .num 310),
   (str "inStock", .bool true),
   (str "price", .num 15)]

/-- The valid book payload with publishedYear 2027 instead. -/
def bookFields2027 : List (Str × Json) :=
  [(str "title", .str (str "The Hobbit")),
   (str "isbn", .str (str "9780547928227")),
   (str "authorId", .str (str "665f6a0f2c3d4b1a9f0a1234")),
   (str "publishedYear", .num 2027),
   (str "genres", .arr [.str (str "Fantasy")]),
   (str "pages", .num 310),
   (str "inStock", .bool true),
   (str "price", .num 15)]

/-- The valid book payload plus two undeclared keys (one a client `_id`). -/
def bookFieldsExtra : List (Str × Json) :=
  (str "_id", .str (str "665f6a0f2c3d4b1a9f0a9999")) ::
  (str "hacked", .bool true) :: bookFieldsValid

/-- The valid book payload with its title removed. -/
def bookFieldsNoTitle : List (Str × Json) :=
  bookFieldsValid.filter (fun p => p.1 ≠ str "title")

/-- The author payload with an email the email check rejects. -/
def authorFieldsBadEmail : List (Str × Json) :=
  (str "email", .str (str "not-an-email")) :: authorFieldsW.filter (fun p => p.1 ≠ str "email")

def upperHexId : Str := str "665F6A0F2C3D4B1A9F0A1234"

def lowerHexId : Str := str "665f6a0f2c3d4b1a9f0a1234"

/-! ## Claims -/

/-- C2: the Identifier Codec accepts exactly the strings of 24 hex
characters. Every other input — wrong length, non-hex characters, empty —
makes `parseId` fail with the exposed `Invalid id format` error carrying
statusCode 400, and a path-scoped handler given such an id answers 400. -/
theorem c2_parse_id_spec (s : Str) :
    (is24Hex s = false →
      parseId s = .error invalidIdError ∧
      invalidIdError.statusCode = 400 ∧ invalidIdError.expose = true) ∧
    (is24Hex s = true → parseId s = .ok (hexDecode s)) ∧
    (∀ cfg st r, r.idParam = s → is24Hex s = false →
      (getByIdHandler cfg r st).resp = .invalidId ∧
      (getByIdHandler cfg r st).resp.status = 400) := by
  have herr : is24Hex s = false → parseId s = .error invalidIdError := by
    intro h
    unfold parseId
    rw [h]
    rfl
  refine ⟨fun h => ⟨herr h, rfl, rfl⟩, ?_, ?_⟩
  · intro h
    unfold parseId
    rw [h]
    rfl
  · intro cfg st r hr h
    have hp : parseId r.idParam = .error invalidIdError := by
      rw [hr]
      exact herr h
    unfold getByIdHandler
    rw [hp]
    exact ⟨rfl, rfl⟩

theorem c2_parse_id_witness :
    parseId (str "zzz") = .error invalidIdError ∧
    parseId lowerHexId = .ok (hexDecode lowerHexId) ∧
    (getByIdHandler cfgSecure reqBadId emptyStore).resp.status = 400 :=
  ⟨((c2_parse_id_spec (str "zzz")).1 (by decide)).1,
   (c2_parse_id_spec lowerHexId).2.1 (by decide),
   ((c2_parse_id_spec (str "zzz")).2.2 cfgSecure emptyStore reqBadId rfl (by decide)).2⟩

/-- C4 (counterexample): an uppercase 24-hex string parses successfully but
serializes back as lowercase hex — not the wire form it was parsed from. -/
theorem c4_roundtrip_counterexample :
    is24Hex upperHexId = true ∧
    parseId upperHexId = .ok (hexDecode upperHexId) ∧
    oidToHex (hexDecode upperHexId) ≠ upperHexId := by
  refine ⟨by decide, by rfl, by decide⟩

/-- C4 (amended): on every 24-hex string, parse succeeds and the round-trip
yields the lowercase normalization of the input; it equals the original
wire form exactly when the input's hex letters are lowercase. -/
theorem c4_roundtrip_amended (s : Str) (h : is24Hex s = true) :
    parseId s = .ok (hexDecode s) ∧
    oidToHex (hexDecode s) = lowerStr s ∧
    (lowerStr s = s → oidToHex (hexDecode s) = s) := by
  refine ⟨?_, oidToHex_hexDecode h, ?_⟩
  · unfold parseId
    rw [h]
    rfl
  · intro hl
    rw [oidToHex_hexDecode h, hl]

theorem c4_roundtrip_witness :
    parseId lowerHexId = .ok (hexDecode lowerHexId) ∧
    oidToHex (hexDecode lowerHexId) = lowerHexId := by
  have h := c4_roundtrip_amended lowerHexId (by decide)
  exact ⟨h.1, h.2.2 (by decide)⟩

/-- C1 (counterexample): a payload carrying undeclared fields (`_id`,
`hacked`) is not rejected: `BookSchema.parse` succeeds, silently stripping
the extra keys. -/
theorem c1_extra_field_counterexample :
    lookupField bookFieldsExtra (str "hacked") = some (.bool true) ∧
    (∀ fs ∈ bookShape 2026, fs.key ≠ str "hacked") ∧
    (validateBook 2026 (.obj bookFieldsExtra)).isOk = true := by
  refine ⟨by rfl, ?_, by rfl⟩
  intro fs hfs
  simp only [bookShape, List.mem_cons, List.not_mem_nil, or_false] at hfs
  rcases hfs with rfl | rfl | rfl | rfl | rfl | rfl | rfl | rfl <;> decide

theorem parsePublishedYear_num (b q : ℚ) :
    parsePublishedYear b (.num q) =
      if isIntQ q && decide ((1400 : ℚ) ≤ q) && decide (q ≤ b) then some (.num q)
      else none := rfl

/-- C1 (amended): the Schema Validator rejects payloads missing a required
field, carrying a wrong primitive type, or violating a declared bound, in
each case listing the offending field; extra undeclared fields however are
not rejected but silently stripped. -/
theorem c1_schema_rejections (today : DateYMD) (y : ℚ) (fields : List (Str × Json)) :
    (∀ fs ∈ authorShape today, fs.required = true → lookupField fields fs.key = none →
      ∃ ks, validateAuthor today (.obj fields) = .error (.fieldIssues ks) ∧ fs.key ∈ ks) ∧
    (∀ fs ∈ bookShape y, lookupField fields fs.key = none →
      ∃ ks, validateBook y (.obj fields) = .error (.fieldIssues ks) ∧ fs.key ∈ ks) ∧
    (∀ fs ∈ authorShape today, ∀ j, lookupField fields fs.key = some j → fs.parse j = none →
      ∃ ks, validateAuthor today (.obj fields) = .error (.fieldIssues ks) ∧ fs.key ∈ ks) ∧
    (∀ fs ∈ bookShape y, ∀ j, lookupField fields fs.key = some j → fs.parse j = none →
      ∃ ks, validateBook y (.obj fields) = .error (.fieldIssues ks) ∧ fs.key ∈ ks) ∧
    (∀ q : ℚ, parseMinLenString 1 (.num q) = none) ∧
    (∀ s : Str, parsePositiveInt (.str s) = none) ∧
    (∀ q : ℚ, parseBoolField (.num q) = none) ∧
    (∀ b : Bool, parseEmailField (.bool b) = none) ∧
    parsePublishedYear y (.num 1399) = none ∧
    parsePublishedYear y (.num (y + 1)) = none ∧
    parsePositiveInt (.num 0) = none ∧
    parseNonNegNumber (.num (-1)) = none ∧
    parseMinLenString 10 (.str (str "123")) = none := by
  refine ⟨?_, ?_, ?_, ?_, fun q => rfl, fun s => rfl, fun q => rfl, fun b => rfl,
    ?_, ?_, ?_, ?_, ?_⟩
  · intro fs hfs hreq hlook
    exact zodParse_error_of_issue (runShape_missing hfs hreq hlook)
  · intro fs hfs hlook
    have hreq : fs.required = true := by
      simp only [bookShape, List.mem_cons, List.not_mem_nil, or_false] at hfs
      rcases hfs with rfl | rfl | rfl | rfl | rfl | rfl | rfl | rfl <;> rfl
    exact zodParse_error_of_issue (runShape_missing hfs hreq hlook)
  · intro fs hfs j hlook hparse
    exact zodParse_error_of_issue (runShape_badField hfs hlook hparse)
  · intro fs hfs j hlook hparse
    exact zodParse_error_of_issue (runShape_badField hfs hlook hparse)
  · rw [parsePublishedYear_num, if_neg]
    simp only [Bool.and_eq_true, decide_eq_true_eq, not_and, and_imp]
    intro _ h1400
    norm_num at h1400
  · rw [parsePublishedYear_num, if_neg]
    simp only [Bool.and_eq_true, decide_eq_true_eq, not_and, and_imp]
    intro _ _ hub
    linarith
  · rfl
  · rfl
  · rfl

/-- The after-the-fact issue list of `c1_schema_rejections`, exercised: a
book payload with no title fails listing `title`; an author payload whose
email fails the email check fails listing `email`; 1399 fails the year
bound. -/
theorem c1_schema_rejections_witness :
    (∃ ks, validateBook 2026 (.obj bookFieldsNoTitle) = .error (.fieldIssues ks) ∧
      str "title" ∈ ks) ∧
    (∃ ks, validateAuthor todayW (.obj authorFieldsBadEmail) = .error (.fieldIssues ks) ∧
      str "email" ∈ ks) ∧
    parsePublishedYear 2026 (.num 1399) = none := by
  have h := c1_schema_rejections todayW 2026 bookFieldsNoTitle
  have h2 := c1_schema_rejections todayW 2026 authorFieldsBadEmail
  refine ⟨?_, ?_, h.2.2.2.2.2.2.2.2.1⟩
  · exact h.2.1 ⟨str "title", true, parseMinLenString 1⟩ (by simp [bookShape]) (by rfl)
  · exact h2.2.2.1 ⟨str "email", true, parseEmailField⟩ (by simp [authorShape])
      (.str (str "not-an-email")) (by rfl) (by rfl)

/-- The shipped pipeline: `BookSchema` was built once at module load with
bound `moduleLoadYear + 1`, so a validation happening when the calendar
year is `validationYear` still applies the bound from `moduleLoadYear`. -/
def validateBookAt (moduleLoadYear validationYear : ℚ) : Json → Except ZodError Doc :=
  validateBook (moduleLoadYear + 1)

/-- Modelled from the spec: "Numeric year bound is computed relative to
current calendar time at validation time (not a fixed constant)" — the
variant of `BookSchema.parse` the claim describes, whose upper bound
`validationYear + 1` is recomputed from the year current at each
validation. -/
def validateBookMovingBound (moduleLoadYear validationYear : ℚ) :
    Json → Except ZodError Doc :=
  validateBook (validationYear + 1)

/-- C3 (counterexample): a process started in 2025, validating in 2026 a
book with publishedYear 2027 (= validation-time year + 1): the moving bound
the claim describes accepts it, the shipped code rejects it keyed to
publishedYear — the bound was fixed at module load, not computed at
validation time. -/
theorem c3_moving_bound_counterexample :
    (validateBookMovingBound 2025 2026 (.obj bookFields2027)).isOk = true ∧
    validateBookAt 2025 2026 (.obj bookFields2027) =
      .error (.fieldIssues [str "publishedYear"]) := by
  constructor
  · show (validateBook ((2026 : ℚ) + 1) (.obj bookFields2027)).isOk = true
    rw [show (2026 : ℚ) + 1 = 2027 from by norm_num]
    rfl
  · show validateBook ((2025 : ℚ) + 1) (.obj bookFields2027) = _
    rw [show (2025 : ℚ) + 1 = 2026 from by norm_num]
    rfl

/-- C3 (amended): the upper bound on publishedYear is fixed once at module
load (moduleLoadYear + 1), not recomputed per validation; since the
validation-time year is never before the load year, a payload with
publishedYear = validationYear + 2 — or = 1399 — still always fails with
ValidationFailed keyed to publishedYear. -/
theorem c3_year_bound_amended (my vy : ℚ) (fields : List (Str × Json))
    (hle : my ≤ vy) :
    validateBookAt my vy = validateBook (my + 1) ∧
    (lookupField fields (str "publishedYear") = some (.num (vy + 2)) →
      ∃ ks, validateBookAt my vy (.obj fields) = .error (.fieldIssues ks) ∧
        str "publishedYear" ∈ ks) ∧
    (lookupField fields (str "publishedYear") = some (.num 1399) →
      ∃ ks, validateBookAt my vy (.obj fields) = .error (.fieldIssues ks) ∧
        str "publishedYear" ∈ ks) := by
  have hmem : (⟨str "publishedYear", true, parsePublishedYear (my + 1)⟩ : FieldSpec) ∈
      bookShape (my + 1) := by
    simp [bookShape]
  refine ⟨rfl, ?_, ?_⟩
  · intro hlook
    have hparse : parsePublishedYear (my + 1) (.num (vy + 2)) = none := by
      rw [parsePublishedYear_num, if_neg]
      simp only [Bool.and_eq_true, decide_eq_true_eq, not_and, and_imp]
      intro _ _ hub
      linarith
    exact zodParse_error_of_issue (runShape_badField hmem hlook hparse)
  · intro hlook
    have hparse : parsePublishedYear (my + 1) (.num 1399) = none := by
      rw [parsePublishedYear_num, if_neg]
      simp only [Bool.and_eq_true, decide_eq_true_eq, not_and, and_imp]
      intro _ h1400
      norm_num at h1400
    exact zodParse_error_of_issue (runShape_badField hmem hlook hparse)

theorem c3_year_bound_witness :
    ∃ ks, validateBookAt 2025 2025 (.obj bookFields2027) = .error (.fieldIssues ks) ∧
      str "publishedYear" ∈ ks := by
  have h := (c3_year_bound_amended 2025 2025 bookFields2027 (le_refl (2025 : ℚ))).2.1
  apply h
  rw [show (2025 : ℚ) + 2 = 2027 from by norm_num]
  rfl

theorem authGate_unauth {cfg : AuthCfg} {r : Request}
    (he : enforce cfg = true) (hc : credValid r.cred = false) :
    authGate cfg r = some .unauthenticated := by
  unfold authGate
  rw [he, hc]
  rfl

theorem authGate_forbidden {cfg : AuthCfg} {r : Request}
    (he : enforce cfg = true) (hc : credValid r.cred = true)
    (hs : hasScope r.cred writeScope = false) :
    authGate cfg r = some .forbidden := by
  unfold authGate
  rw [he, hc, hs]
  rfl

/-- C5: on every mutating route (POST, PUT, DELETE) the checks run in the
fixed order jwtCheck (401), needWrite (403), content-type (415, on the
body-bearing routes), then id parsing / schema validation: whatever the
body, id, or content type, a request failing authentication answers 401 —
so a request both unauthorized and malformed reports the authorization
failure; an authenticated request lacking the write scope answers 403; and
one passing the gate with a non-JSON content type answers 415 — never the
validation error. -/
theorem c5_check_ordering (cfg : AuthCfg) (today : DateYMD) (y : ℚ)
    (r : Request) (st : Store) :
    (enforce cfg = true → credValid r.cred = false →
      (postAuthor today cfg r st).resp = .unauthenticated ∧
      (putBook y cfg r st).resp = .unauthenticated ∧
      (deleteHandler cfg r st).resp = .unauthenticated) ∧
    (enforce cfg = true → credValid r.cred = true → hasScope r.cred writeScope = false →
      (postAuthor today cfg r st).resp = .forbidden ∧
      (putBook y cfg r st).resp = .forbidden ∧
      (deleteHandler cfg r st).resp = .forbidden) ∧
    (authGate cfg r = none → r.isJson = false →
      (postAuthor today cfg r st).resp = .unsupportedMedia ∧
      (putBook y cfg r st).resp = .unsupportedMedia) := by
  refine ⟨?_, ?_, ?_⟩
  · intro he hc
    have hg := authGate_unauth he hc
    refine ⟨?_, ?_, ?_⟩
    · unfold postAuthor postHandler
      rw [hg]
    · unfold putBook putHandler
      rw [hg]
    · unfold deleteHandler
      rw [hg]
  · intro he hc hs
    have hg := authGate_forbidden he hc hs
    refine ⟨?_, ?_, ?_⟩
    · unfold postAuthor postHandler
      rw [hg]
    · unfold putBook putHandler
      rw [hg]
    · unfold deleteHandler
      rw [hg]
  · intro hg hj
    constructor
    · unfold postAuthor postHandler
      rw [hg, hj]
      rfl
    · unfold putBook putHandler
      rw [hg, hj]
      rfl

/-- C5 exercised: a secure-mode POST with no credential and a malformed
body answers 401, a secure-mode DELETE with no credential and a malformed
id answers 401 (not the id error), and an authorized PUT with a non-JSON
content type and an invalid body and id answers 415. -/
theorem c5_check_ordering_witness :
    (postAuthor todayW cfgSecure ⟨none, false, str "zzz", .null⟩ emptyStore).resp =
      .unauthenticated ∧
    (deleteHandler cfgSecure ⟨none, false, str "zzz", .null⟩ emptyStore).resp =
      .unauthenticated ∧
    (putBook 2026 cfgDisabled ⟨none, false, str "zzz", .null⟩ emptyStore).resp =
      .unsupportedMedia := by
  refine ⟨?_, ?_, ?_⟩
  · exact ((c5_check_ordering cfgSecure todayW 2026
      ⟨none, false, str "zzz", .null⟩ emptyStore).1 rfl rfl).1
  · exact ((c5_check_ordering cfgSecure todayW 2026
      ⟨none, false, str "zzz", .null⟩ emptyStore).1 rfl rfl).2.2
  · exact ((c5_check_ordering cfgDisabled todayW 2026
      ⟨none, false, str "zzz", .null⟩ emptyStore).2.2 rfl rfl).2

/-- The §7 taxonomy entries for client-input problems: identifier form,
schema, media type, auth (400/401/403/415 — not the 404 store outcome). -/
def clientError : Resp → Bool
  | .invalidId => true
  | .validationFailed _ => true
  | .unauthenticated => true
  | .forbidden => true
  | .unsupportedMedia => true
  | _ => false

/-- C6: whenever a mutating request is rejected for a client-input problem,
the handler attempted no store operation and the store is unchanged. -/
theorem c6_no_store_on_client_error (validate : Json → Except ZodError Doc)
    (cfg : AuthCfg) (r : Request) (st : Store) :
    (clientError (postHandler validate cfg r st).resp = true →
      (postHandler validate cfg r st).store = st ∧
      (postHandler validate cfg r st).calls = []) ∧
    (clientError (putHandler validate cfg r st).resp = true →
      (putHandler validate cfg r st).store = st ∧
      (putHandler validate cfg r st).calls = []) ∧
    (clientError (deleteHandler cfg r st).resp = true →
      (deleteHandler cfg r st).store = st ∧
      (deleteHandler cfg r st).calls = []) := by
  refine ⟨?_, ?_, ?_⟩
  · unfold postHandler
    cases authGate cfg r with
    | some resp => exact fun _ => ⟨rfl, rfl⟩
    | none =>
      cases hj : r.isJson with
      | false => exact fun _ => ⟨rfl, rfl⟩
      | true =>
        cases validate r.body with
        | error e => exact fun _ => ⟨rfl, rfl⟩
        | ok doc =>
          intro hce
          simp [clientError] at hce
  · unfold putHandler
    cases authGate cfg r with
    | some resp => exact fun _ => ⟨rfl, rfl⟩
    | none =>
      cases hj : r.isJson with
      | false => exact fun _ => ⟨rfl, rfl⟩
      | true =>
        cases parseId r.idParam with
        | error e => exact fun _ => ⟨rfl, rfl⟩
        | ok oid =>
          cases validate r.body with
          | error e => exact fun _ => ⟨rfl, rfl⟩
          | ok doc =>
            cases hm : (st.replaceOne oid doc).1 with
            | zero =>
              intro hce
              simp only [hm] at hce
              simp [clientError] at hce
            | succ n =>
              intro hce
              simp only [hm] at hce
              simp [clientError] at hce
  · unfold deleteHandler
    cases authGate cfg r with
    | some resp => exact fun _ => ⟨rfl, rfl⟩
    | none =>
      cases parseId r.idParam with
      | error e => exact fun _ => ⟨rfl, rfl⟩
      | ok oid =>
        cases hm : (st.deleteOne oid).1 with
        | zero =>
          intro hce
          simp only [hm] at hce
          simp [clientError] at hce
        | succ n =>
          intro hce
          simp only [hm] at hce
          simp [clientError] at hce

/-- C6 exercised: a POST rejected for a schema violation leaves the store
untouched and performed no store call. -/
theorem c6_no_store_witness :
    clientError (postHandler (validateBook 2026) cfgDisabled
      ⟨none, true, str "", .obj bookFieldsNoTitle⟩ emptyStore).resp = true ∧
    (postHandler (validateBook 2026) cfgDisabled
      ⟨none, true, str "", .obj bookFieldsNoTitle⟩ emptyStore).store = emptyStore ∧
    (postHandler (validateBook 2026) cfgDisabled
      ⟨none, true, str "", .obj bookFieldsNoTitle⟩ emptyStore).calls = [] := by
  have hce : clientError (postHandler (validateBook 2026) cfgDisabled
      ⟨none, true, str "", .obj bookFieldsNoTitle⟩ emptyStore).resp = true := by rfl
  have h := (c6_no_store_on_client_error (validateBook 2026) cfgDisabled
    ⟨none, true, str "", .obj bookFieldsNoTitle⟩ emptyStore).1 hce
  exact ⟨hce, h.1, h.2⟩

/-- C7: with AUTH_DISABLE=true, ENFORCE is false, so jwtCheck and needWrite
are no-ops: the full outcome (response, store, store calls) of every route
is independent of the presence and content of the credential. -/
theorem c7_disabled_bypass_total (validate : Json → Except ZodError Doc)
    (cfg : AuthCfg) (r : Request) (st : Store) (oc1 oc2 : Option Cred)
    (hd : cfg.authDisable = true) :
    postHandler validate cfg {r with cred := oc1} st =
      postHandler validate cfg {r with cred := oc2} st ∧
    putHandler validate cfg {r with cred := oc1} st =
      putHandler validate cfg {r with cred := oc2} st ∧
    deleteHandler cfg {r with cred := oc1} st = deleteHandler cfg {r with cred := oc2} st ∧
    getByIdHandler cfg {r with cred := oc1} st = getByIdHandler cfg {r with cred := oc2} st ∧
    listHandler cfg {r with cred := oc1} st = listHandler cfg {r with cred := oc2} st := by
  have he : enforce cfg = false := by
    unfold enforce
    rw [hd]
    simp
  have hg : ∀ oc : Option Cred, authGate cfg {r with cred := oc} = none := by
    intro oc
    unfold authGate
    rw [he]
    simp
  refine ⟨?_, ?_, ?_, rfl, rfl⟩
  · unfold postHandler
    rw [hg oc1, hg oc2]
  · unfold putHandler
    rw [hg oc1, hg oc2]
  · unfold deleteHandler
    rw [hg oc1, hg oc2]

/-- C7 exercised: in disabled mode a credential-less POST of a valid book
behaves exactly like the same request with a verified write-scoped
credential — both create the document (201). -/
theorem c7_disabled_bypass_witness :
    postBook 2026 cfgDisabled ⟨none, true, str "", .obj bookFieldsValid⟩ emptyStore =
      postBook 2026 cfgDisabled
        ⟨some ⟨true, [writeScope]⟩, true, str "", .obj bookFieldsValid⟩ emptyStore ∧
    (postBook 2026 cfgDisabled ⟨none, true, str "", .obj bookFieldsValid⟩ emptyStore).resp =
      .created (freshOId 0) := by
  constructor
  · exact (c7_disabled_bypass_total (validateBook 2026) cfgDisabled
      ⟨none, true, str "", .obj bookFieldsValid⟩ emptyStore
      none (some ⟨true, [writeScope]⟩) rfl).1
  · rfl

/-- C10: the read routes attach no auth middleware: in every enforcement
mode (secure included) they never answer 401 or 403, and their outcome is
unchanged under any change of credential. -/
theorem c10_reads_unguarded (cfg : AuthCfg) (r : Request) (st : Store) (oc : Option Cred) :
    (getByIdHandler cfg r st).resp.status ∈ [200, 400, 404] ∧
    (listHandler cfg r st).resp.status = 200 ∧
    getByIdHandler cfg {r with cred := oc} st = getByIdHandler cfg r st ∧
    listHandler cfg {r with cred := oc} st = listHandler cfg r st := by
  refine ⟨?_, rfl, rfl, rfl⟩
  unfold getByIdHandler
  cases parseId r.idParam with
  | error e => simp [Resp.status]
  | ok oid =>
    cases hf : st.findOne oid with
    | none => simp [hf, Resp.status]
    | some d => simp [hf, Resp.status]

theorem parseEmailField_str (s : Str) :
    parseEmailField (.str s) =
      if isValidEmail s then some (.str (emailNormalize s)) else none := rfl

/-- C8: email normalization is idempotent across validation: revalidating a
successfully validated Author payload with its email replaced by the
normalized email from the prior validation succeeds and produces the very
same document — in particular the same normalized email. -/
theorem c8_email_idempotent (today : DateYMD) (fields : List (Str × Json))
    (doc : Doc) (e : Str)
    (hok : validateAuthor today (.obj fields) = .ok doc)
    (he : (str "email", Val.str e) ∈ doc) :
    validateAuthor today (.obj (setField fields (str "email") (.str e))) = .ok doc := by
  have hrs : runShape (authorShape today) fields = ([], doc) := by
    obtain ⟨fields0, hfe, hrs0⟩ := zodParse_ok_inv hok
    injection hfe with h
    rw [h]
    exact hrs0
  have he2 : (str "email", Val.str e) ∈ (runShape (authorShape today) fields).2 := by
    rw [hrs]
    exact he
  obtain ⟨fs, hfs, hkey, j, hlook, hparse⟩ :=
    runShape_mem (str "email", Val.str e) he2
  replace hkey : fs.key = str "email" := hkey
  replace hparse : fs.parse j = some (Val.str e) := hparse
  simp only [authorShape, List.mem_cons, List.not_mem_nil, or_false] at hfs
  rcases hfs with rfl | rfl | rfl | rfl | rfl | rfl
  · exact absurd (show str "firstName" = str "email" from hkey) (by decide)
  · exact absurd (show str "lastName" = str "email" from hkey) (by decide)
  case _ =>
    -- the email field itself
    replace hlook : lookupField fields (str "email") = some j := hlook
    replace hparse : parseEmailField j = some (Val.str e) := hparse
    cases j with
    | str s =>
      rw [parseEmailField_str] at hparse
      split at hparse
      · next hv =>
        have hnorm : emailNormalize s = e := by
          simpa using hparse
        have hvalid : isValidEmail e = true := by
          rw [← hnorm]
          exact emailNormalize_valid hv
        have hidem : emailNormalize e = e := by
          rw [← hnorm]
          exact emailNormalize_idem hv
        have hcongr : runShape (authorShape today)
            (setField fields (str "email") (.str e)) =
            runShape (authorShape today) fields := by
          apply runShape_congr
          intro fs2 hfs2
          by_cases hk2 : fs2.key = str "email"
          · right
            refine ⟨.str e, .str s, ?_, ?_, ?_⟩
            · rw [lookupField_setField, if_pos hk2]
            · rw [hk2]
              exact hlook
            · simp only [authorShape, List.mem_cons, List.not_mem_nil, or_false] at hfs2
              rcases hfs2 with rfl | rfl | rfl | rfl | rfl | rfl
              · exact absurd (show str "firstName" = str "email" from hk2) (by decide)
              · exact absurd (show str "lastName" = str "email" from hk2) (by decide)
              · show parseEmailField (.str e) = parseEmailField (.str s)
                rw [parseEmailField_str, parseEmailField_str, if_pos hv, if_pos hvalid,
                  hidem, hnorm]
              · exact absurd (show str "birthdate" = str "email" from hk2) (by decide)
              · exact absurd (show str "nationality" = str "email" from hk2) (by decide)
              · exact absurd (show str "website" = str "email" from hk2) (by decide)
          · cases h2 : lookupField fields fs2.key with
            | none =>
              left
              constructor
              · rw [lookupField_setField, if_neg hk2]
                exact h2
              · rfl
            | some j2 =>
              right
              refine ⟨j2, j2, ?_, rfl, rfl⟩
              rw [lookupField_setField, if_neg hk2]
              exact h2
        show zodParse (authorShape today) _ = _
        apply zodParse_obj_ok
        rw [hcongr, hrs]
      · cases hparse
    | null => simp [parseEmailField] at hparse
    | bool b => simp [parseEmailField] at hparse
    | num q => simp [parseEmailField] at hparse
    | arr xs => simp [parseEmailField] at hparse
    | obj o => simp [parseEmailField] at hparse
  · exact absurd (show str "birthdate" = str "email" from hkey) (by decide)
  · exact absurd (show str "nationality" = str "email" from hkey) (by decide)
  · exact absurd (show str "website" = str "email" from hkey) (by decide)

theorem c8_email_idempotent_witness :
    validateAuthor todayW (.obj authorFieldsW) = .ok authorDocW ∧
    validateAuthor todayW
      (.obj (setField authorFieldsW (str "email") (.str (str "ada@example.com")))) =
      .ok authorDocW :=
  ⟨by rfl, c8_email_idempotent todayW authorFieldsW authorDocW (str "ada@example.com")
    (by rfl) (by decide)⟩

/-- C9: a successful validation outputs only declared keys — a
client-supplied `_id` is stripped rather than rejected and never reaches
the store — every required field is present in the output, and Create and
Replace each hand the store exactly the validated document (`insertOne` of
it, resp. `replaceOne` by it). -/
theorem c9_only_declared_fields (today : DateYMD) (y : ℚ) (j : Json) (doc : Doc) :
    (validateAuthor today j = .ok doc →
      (∀ kv ∈ doc, kv.1 ∈ (authorShape today).map (fun fs => fs.key)) ∧
      (∀ v : Val, (str "_id", v) ∉ doc) ∧
      (∀ fs ∈ authorShape today, fs.required = true → ∃ v, (fs.key, v) ∈ doc)) ∧
    (validateBook y j = .ok doc →
      (∀ kv ∈ doc, kv.1 ∈ (bookShape y).map (fun fs => fs.key)) ∧
      (∀ v : Val, (str "_id", v) ∉ doc) ∧
      (∀ fs ∈ bookShape y, fs.required = true → ∃ v, (fs.key, v) ∈ doc)) ∧
    (∀ (validate : Json → Except ZodError Doc) (cfg : AuthCfg) (r : Request)
        (st : Store) (docv : Doc),
      authGate cfg r = none → r.isJson = true → validate r.body = .ok docv →
      (postHandler validate cfg r st).store.docs =
        st.docs ++ [(freshOId st.counter, docv)]) ∧
    (∀ (validate : Json → Except ZodError Doc) (cfg : AuthCfg) (r : Request)
        (st : Store) (docv : Doc) (oid : OId),
      authGate cfg r = none → r.isJson = true → parseId r.idParam = .ok oid →
      validate r.body = .ok docv →
      (putHandler validate cfg r st).store = (st.replaceOne oid docv).2 ∧
      (putHandler validate cfg r st).calls = [.replaceOne]) := by
  have main : ∀ (shape : List FieldSpec) (jj : Json) (dd : Doc),
      zodParse shape jj = .ok dd →
      (∀ kv ∈ dd, kv.1 ∈ shape.map (fun fs => fs.key)) ∧
      (∀ fs ∈ shape, fs.required = true → ∃ v, (fs.key, v) ∈ dd) := by
    intro shape jj dd hok
    obtain ⟨fields, rfl, hrs⟩ := zodParse_ok_inv hok
    constructor
    · intro kv hkv
      have hkv2 : kv ∈ (runShape shape fields).2 := by
        rw [hrs]
        exact hkv
      obtain ⟨fs, hfs, hkey, -⟩ := runShape_mem kv hkv2
      exact List.mem_map.mpr ⟨fs, hfs, hkey⟩
    · intro fs hfs hreq
      have h1 : (runShape shape fields).1 = [] := by
        rw [hrs]
      obtain ⟨v, hv⟩ := runShape_required h1 fs hfs hreq
      refine ⟨v, ?_⟩
      rw [hrs] at hv
      exact hv
  refine ⟨?_, ?_, ?_, ?_⟩
  · intro hok
    have h := main (authorShape today) j doc hok
    refine ⟨h.1, ?_, h.2⟩
    intro v hv
    have hmem2 : str "_id" ∈ (authorShape today).map (fun fs => fs.key) :=
      h.1 (str "_id", v) hv
    rw [show (authorShape today).map (fun fs => fs.key) =
      [str "firstName", str "lastName", str "email", str "birthdate",
       str "nationality", str "website"] from rfl] at hmem2
    exact absurd hmem2 (by decide)
  · intro hok
    have h := main (bookShape y) j doc hok
    refine ⟨h.1, ?_, h.2⟩
    intro v hv
    have hmem2 : str "_id" ∈ (bookShape y).map (fun fs => fs.key) :=
      h.1 (str "_id", v) hv
    rw [show (bookShape y).map (fun fs => fs.key) =
      [str "title", str "isbn", str "authorId", str "publishedYear",
       str "genres", str "pages", str "inStock", str "price"] from rfl] at hmem2
    exact absurd hmem2 (by decide)
  · intro validate cfg r st docv hg hj hval
    unfold postHandler
    rw [hg, hj, hval]
    rfl
  · intro validate cfg r st docv oid hg hj hid hval
    have hcompute : putHandler validate cfg r st =
        if (st.replaceOne oid docv).1 = 0
        then ⟨.notFound, (st.replaceOne oid docv).2, [.replaceOne]⟩
        else ⟨.noContent, (st.replaceOne oid docv).2, [.replaceOne]⟩ := by
      unfold putHandler
      rw [hg, hj, hid, hval]
      rfl
    rw [hcompute]
    by_cases hm : (st.replaceOne oid docv).1 = 0
    · rw [if_pos hm]
      exact ⟨rfl, rfl⟩
    · rw [if_neg hm]
      exact ⟨rfl, rfl⟩

/-- The stored book doc of the `bookFieldsExtra` payload: declared fields
only, `_id` and `hacked` stripped. -/
def bookDocW : Doc :=
  [(str "title", .str (str "The Hobbit")),
   (str "isbn", .str (str "9780547928227")),
   (str "authorId", .oid (hexDecode lowerHexId)),
   (str "publishedYear", .num 1937),
   (str "genres", .arrStr [str "Fantasy"]),
   (str "pages", .num 310),
   (str "inStock", .bool true),
   (str "price", .num 15)]

/-- A store holding one stale document under the fixture id. -/
def storeOne : Store := ⟨[(hexDecode lowerHexId, [])], 1⟩

theorem c9_only_declared_witness :
    validateBook 2026 (.obj bookFieldsExtra) = .ok bookDocW ∧
    (∀ v : Val, (str "_id", v) ∉ bookDocW) ∧
    (putHandler (validateBook 2026) cfgDisabled
        ⟨none, true, lowerHexId, .obj bookFieldsExtra⟩ storeOne).store =
      (storeOne.replaceOne (hexDecode lowerHexId) bookDocW).2 :=
  ⟨by rfl,
   ((c9_only_declared_fields todayW 2026 (.obj bookFieldsExtra) bookDocW).2.1
     (by rfl)).2.1,
   ((c9_only_declared_fields todayW 2026 (.obj bookFieldsExtra) bookDocW).2.2.2
     (validateBook 2026) cfgDisabled
     ⟨none, true, lowerHexId, .obj bookFieldsExtra⟩ storeOne bookDocW
     (hexDecode lowerHexId) (by rfl) rfl (by rfl) (by rfl)).1⟩

end LibraryApi
